import Mathlib

/-!
Verification of the TiledArray core against its specification.

This file gives a shallow embedding of the two subsystems covered by the
specification: the sparse-shape algebra (SparseShape, from sparse_shape.h)
and the asynchronous reduction task (ReduceTask, from reduce_task.h), and
proves or refutes the frozen claims about them.

Conventions of the embedding:
* Tile norms are modelled as exact rationals.  The numeric tile type of
  the source is a machine floating-point type; the claims under study are
  about branch structure, thresholding, permutation plumbing and reduction
  order, none of which depend on rounding.
* The tile-norm Tensor of the source is an external collaborator (the
  numeric-tile algebra of section 6 of the spec).  Its elementwise and
  permute operations are modelled from the spec, as noted on each
  definition.
* The process-wide threshold (a static member in the source) is threaded
  through every operation as an explicit parameter, following the
  re-expression suggested in section 9 of the spec.
* A default-constructed (empty) shape is modelled as the value none of
  Option SparseShape; a SparseShape value proper always carries data.
-/

namespace TiledArray

/-- The hard-zero step used throughout the source: a value strictly below
the threshold is stored as exactly zero. -/
def hardZero (threshold v : ℚ) : ℚ := if v < threshold then 0 else v

/-- Modelled from the spec: the dense tile-norm tensor of a shape.  The
range of the tensor is the list of extents of the tile grid, and the data
is read at a multi-index (a list of coordinates, one per dimension). -/
structure NormTensor where
  extents : List ℕ
  data : List ℕ → ℚ

namespace NormTensor

/-- Number of dimensions of the tile grid, as in range().dim(). -/
def dim (t : NormTensor) : ℕ := t.extents.length

/-- Modelled from the spec: elementwise unary map on the tile-norm tensor
(Tensor unary, part of the external numeric-tile algebra). -/
def unary (t : NormTensor) (f : ℚ → ℚ) : NormTensor :=
  ⟨t.extents, fun j => f (t.data j)⟩

/-- Modelled from the spec: elementwise binary combination of two
tile-norm tensors (Tensor binary, external numeric-tile algebra). -/
def binary (t u : NormTensor) (f : ℚ → ℚ → ℚ) : NormTensor :=
  ⟨t.extents, fun j => f (t.data j) (u.data j)⟩

/-- Modelled from the spec: Tensor add, the entrywise sum of norms. -/
def add (t u : NormTensor) : NormTensor := t.binary u (fun a b => a + b)

/-- Modelled from the spec: Tensor mult, the entrywise product of norms. -/
def mult (t u : NormTensor) : NormTensor := t.binary u (fun a b => a * b)

/-- Modelled from the spec: Tensor mult with a scale factor, the entrywise
product of norms scaled by the factor. -/
def multFactor (t u : NormTensor) (f : ℚ) : NormTensor :=
  t.binary u (fun a b => a * b * f)

end NormTensor

/-- The scatter assignment used by the source for permuted metadata:
the element at position d of the input lands at position p[d] of the
result, so position i of the result reads the input at the position of
value i inside p. -/
def permList {α : Type} (p : List ℕ) (d0 : α) (xs : List α) : List α :=
  (List.range p.length).map (fun i => xs.getD (p.indexOf i) d0)

/-- Modelled from the spec: Tensor permute.  The result range satisfies
resultExtents[p[d]] = extents[d] and the entry of the result at the
p-image of a multi-index equals the source entry at that multi-index;
equivalently, the result at index j reads the source at the index whose
coordinate d is j[p[d]]. -/
def NormTensor.permute (t : NormTensor) (p : List ℕ) : NormTensor :=
  ⟨permList p 0 t.extents,
   fun j => t.data ((List.range p.length).map (fun d => j.getD (p.getD d 0) 0))⟩

/-- The sparse shape: a tensor of normalized per-tile norms plus one size
vector per dimension (SparseShape of sparse_shape.h).  A value of this
type always carries data; the default-constructed empty shape is
represented as none at the Option SparseShape level. -/
structure SparseShape where
  tile_norms : NormTensor
  size_vectors : List (List ℚ)

namespace SparseShape

/-- Error kind raised by precondition checks (TA_ASSERT in the source). -/
inductive ShapeError where
  | preconditionViolated
deriving DecidableEq

/-- The threshold setter, from the source.  The body is a bare assignment
of the new value to the static member, with no validation; the Except
wrapper records that no error path exists. -/
def setThreshold (thresh : ℚ) : Except ShapeError ℚ := Except.ok thresh

/-- The validate query, from the source: false on an empty shape, and
otherwise a comparison of the given range with the range of the stored
tile-norm tensor. -/
def validate : Option SparseShape → List ℕ → Bool
  | none, _ => false
  | some s, r => decide (r = s.tile_norms.extents)

/-- The is_zero query, from the source: the stored norm at the index is
strictly below the threshold. -/
def is_zero (threshold : ℚ) (s : SparseShape) (i : List ℕ) : Bool :=
  decide (s.tile_norms.data i < threshold)

/-- The permuted size-vector metadata, from the source: the loop assigns
result[perm[i]] = size_vectors[i]. -/
def perm_size_vectors (s : SparseShape) (p : List ℕ) : List (List ℚ) :=
  permList p [] s.size_vectors

/-- The perm operation, from the source: permute the tile norms and the
size vectors by p. -/
def perm (s : SparseShape) (p : List ℕ) : SparseShape :=
  ⟨s.tile_norms.permute p, s.perm_size_vectors p⟩

/-- The scale operation, from the source: each norm is multiplied by the
absolute value of the factor, then hard-zeroed below the threshold. -/
def scale (threshold : ℚ) (s : SparseShape) (factor : ℚ) : SparseShape :=
  ⟨s.tile_norms.unary (fun v => hardZero threshold (v * |factor|)), s.size_vectors⟩

/-- The fused scale-and-permute operation, from the source. -/
def scaleFusedPerm (threshold : ℚ) (s : SparseShape) (factor : ℚ) (p : List ℕ) :
    SparseShape :=
  ⟨(s.tile_norms.unary (fun v => hardZero threshold (v * |factor|))).permute p,
   s.perm_size_vectors p⟩

/-- The add operation, from the source: the plain entrywise sum of the two
norm tensors, with no hard-zero step. -/
def add (s o : SparseShape) : SparseShape :=
  ⟨s.tile_norms.add o.tile_norms, s.size_vectors⟩

/-- The add-and-permute operation, from the source. -/
def addPerm (s o : SparseShape) (p : List ℕ) : SparseShape :=
  ⟨(s.tile_norms.add o.tile_norms).permute p, s.perm_size_vectors p⟩

/-- The add-and-scale operation, from the source: entrywise
(left + right) times the absolute factor, hard-zeroed below threshold. -/
def addFactor (threshold : ℚ) (s o : SparseShape) (factor : ℚ) : SparseShape :=
  ⟨s.tile_norms.binary o.tile_norms
     (fun l r => hardZero threshold ((l + r) * |factor|)), s.size_vectors⟩

/-- The add-scale-permute operation, from the source. -/
def addFactorPerm (threshold : ℚ) (s o : SparseShape) (factor : ℚ) (p : List ℕ) :
    SparseShape :=
  ⟨(s.tile_norms.binary o.tile_norms
      (fun l r => hardZero threshold ((l + r) * |factor|))).permute p,
   s.perm_size_vectors p⟩

/-- Modelled from the spec: the value at multi-index j of the recursive
outer product of the per-dimension inverse-square-root vectors (the
inv_sqrt_vec transform of the outer-product scaffold; the flat-buffer
helpers math::outer_fill and the vector type are external).  The square
root itself is a floating-point routine in the source and is passed in
abstractly. -/
def invSqrtProd (sqrtFn : ℚ → ℚ) (svs : List (List ℚ)) (j : List ℕ) : ℚ :=
  (List.zipWith (fun sv i => 1 / sqrtFn (sv.getD i 0)) svs j).prod

/-- The add-a-constant operation, from the source: in normalized space the
constant contributes its absolute value divided by the square root of the
tile volume, followed by the hard-zero step.  The one-dimensional branch
divides by the square root of the single size directly; the
multi-dimensional branch multiplies by the outer product of the
inverse-square-root vectors. -/
def addConst (sqrtFn : ℚ → ℚ) (threshold : ℚ) (s : SparseShape) (v : ℚ) :
    SparseShape :=
  if s.tile_norms.dim = 1 then
    ⟨⟨s.tile_norms.extents,
      fun j => hardZero threshold
        (s.tile_norms.data j + |v| / sqrtFn ((s.size_vectors.headD []).getD (j.headD 0) 0))⟩,
     s.size_vectors⟩
  else
    ⟨⟨s.tile_norms.extents,
      fun j => hardZero threshold
        (s.tile_norms.data j + |v| * invSqrtProd sqrtFn s.size_vectors j)⟩,
     s.size_vectors⟩

/-- The add-a-constant-and-permute operation, from the source: implemented
as addConst followed by perm. -/
def addConstPerm (sqrtFn : ℚ → ℚ) (threshold : ℚ) (s : SparseShape) (v : ℚ)
    (p : List ℕ) : SparseShape :=
  (addConst sqrtFn threshold s v).perm p

/-- The subt operation, from the source: defined as add. -/
def subt (s o : SparseShape) : SparseShape := s.add o

/-- The subt-and-permute operation, from the source: defined as addPerm. -/
def subtPerm (s o : SparseShape) (p : List ℕ) : SparseShape := s.addPerm o p

/-- The subt-and-scale operation, from the source: defined as addFactor. -/
def subtFactor (threshold : ℚ) (s o : SparseShape) (factor : ℚ) : SparseShape :=
  addFactor threshold s o factor

/-- The subt-scale-permute operation, from the source: defined as
addFactorPerm. -/
def subtFactorPerm (threshold : ℚ) (s o : SparseShape) (factor : ℚ)
    (p : List ℕ) : SparseShape :=
  addFactorPerm threshold s o factor p

/-- The subt-a-constant operation, from the source: defined as addConst. -/
def subtConst (sqrtFn : ℚ → ℚ) (threshold : ℚ) (s : SparseShape) (v : ℚ) :
    SparseShape :=
  addConst sqrtFn threshold s v

/-- The subt-a-constant-and-permute operation, from the source: defined as
addConstPerm. -/
def subtConstPerm (sqrtFn : ℚ → ℚ) (threshold : ℚ) (s : SparseShape) (v : ℚ)
    (p : List ℕ) : SparseShape :=
  addConstPerm sqrtFn threshold s v p

/-- Modelled from the spec: the product of tile sizes at a multi-index,
the denotation of the recursive outer product of the size vectors with the
noop transform (the flat-buffer helper math::outer is external). -/
def sizeProd (svs : List (List ℚ)) (j : List ℕ) : ℚ :=
  (List.zipWith (fun sv i => sv.getD i 0) svs j).prod

/-- The scale_by_size helper, from the source.  The one-dimensional branch
multiplies each norm by its tile size with no hard-zero step; the
multi-dimensional branch multiplies by the outer product of the size
vectors and applies the hard-zero step. -/
def scale_by_size (threshold : ℚ) (t : NormTensor) (svs : List (List ℚ)) :
    NormTensor :=
  if t.dim = 1 then
    ⟨t.extents, fun j => t.data j * (svs.headD []).getD (j.headD 0) 0⟩
  else
    ⟨t.extents, fun j => hardZero threshold (t.data j * sizeProd svs j)⟩

/-- The mult operation, from the source: the entrywise product of the two
norm tensors followed by scale_by_size. -/
def mult (threshold : ℚ) (s o : SparseShape) : SparseShape :=
  ⟨scale_by_size threshold (s.tile_norms.mult o.tile_norms) s.size_vectors,
   s.size_vectors⟩

/-- The mult-and-permute operation, from the source. -/
def multPerm (threshold : ℚ) (s o : SparseShape) (p : List ℕ) : SparseShape :=
  ⟨scale_by_size threshold ((s.tile_norms.mult o.tile_norms).permute p)
     (s.perm_size_vectors p),
   s.perm_size_vectors p⟩

/-- The mult-and-scale operation, from the source. -/
def multFactor (threshold : ℚ) (s o : SparseShape) (factor : ℚ) : SparseShape :=
  ⟨scale_by_size threshold (s.tile_norms.multFactor o.tile_norms |factor|)
     s.size_vectors,
   s.size_vectors⟩

/-- The mult-scale-permute operation, from the source. -/
def multFactorPerm (threshold : ℚ) (s o : SparseShape) (factor : ℚ)
    (p : List ℕ) : SparseShape :=
  ⟨scale_by_size threshold
     ((s.tile_norms.multFactor o.tile_norms |factor|).permute p)
     (s.perm_size_vectors p),
   s.perm_size_vectors p⟩

/-- Modelled from the spec: the GemmHelper descriptor of a contraction.
Left axes are ordered outer-then-inner and right axes inner-then-outer,
so left_outer_begin = 0, left_inner_end = leftRank, right_inner_begin = 0
and right_outer_end = rightRank. -/
structure GemmHelper where
  numContract : ℕ
  leftRank : ℕ
  rightRank : ℕ

/-- Number of left outer (uncontracted) dimensions. -/
def GemmHelper.leftOuterRank (g : GemmHelper) : ℕ := g.leftRank - g.numContract

/-- All in-range multi-indices of a list of extents, row-major order. -/
def allIndices : List ℕ → List (List ℕ)
  | [] => [[]]
  | e :: es => (List.range e).flatMap (fun i => (allIndices es).map (fun j => i :: j))

/-- The gemm operation, from the source.  The result size vectors are the
left outer size vectors followed by the right outer ones; when the number
of contracted ranks is positive, the result norms are the matrix product
of the two norm tensors with each argument scaled along the contracted
multi-index by the outer product of the contracted size vectors (the
numeric Tensor gemm path is external and modelled from the spec); when it
is zero, the result is the direct elementwise outer product with the
scale factor and the hard-zero step.  A final pass hard-zeroes every
entry below the threshold. -/
def gemm (threshold : ℚ) (s o : SparseShape) (factor : ℚ) (g : GemmHelper) :
    SparseShape :=
  let f := |factor|
  let lo := g.leftOuterRank
  let resultExtents :=
    s.tile_norms.extents.take lo ++ o.tile_norms.extents.drop g.numContract
  let result_size_vectors :=
    s.size_vectors.take lo ++ o.size_vectors.drop g.numContract
  let innerExt := s.tile_norms.extents.drop lo
  let innerSvs := s.size_vectors.drop lo
  let raw : List ℕ → ℚ :=
    if 0 < g.numContract then
      fun j =>
        f * ((allIndices innerExt).map (fun k =>
          (s.tile_norms.data (j.take lo ++ k) * sizeProd innerSvs k) *
          (sizeProd innerSvs k * o.tile_norms.data (k ++ j.drop lo)))).sum
    else
      fun j => hardZero threshold
        (s.tile_norms.data (j.take lo) * o.tile_norms.data (j.drop lo) * f)
  ⟨⟨resultExtents, fun j => hardZero threshold (raw j)⟩, result_size_vectors⟩

/-- The gemm-and-permute operation, from the source: gemm followed by
perm. -/
def gemmPerm (threshold : ℚ) (s o : SparseShape) (factor : ℚ) (g : GemmHelper)
    (p : List ℕ) : SparseShape :=
  (gemm threshold s o factor g).perm p

end SparseShape

/-- A one-dimensional tile-norm tensor holding the given list of norms. -/
def vecTensor (l : List ℚ) : NormTensor :=
  ⟨[l.length], fun j => l.getD (j.headD 0) 0⟩

/-- A one-dimensional sparse shape with the given norms and size vector. -/
def vecShape (l : List ℚ) (sv : List ℚ) : SparseShape :=
  ⟨vecTensor l, [sv]⟩

end TiledArray

namespace TiledArray

section PermutationLemmas

lemma getD_map_range {α : Type} (f : ℕ → α) {n i : ℕ} (hi : i < n) (d : α) :
    ((List.range n).map f).getD i d = f i := by
  rw [List.getD_eq_getElem _ _ (by simpa using hi)]
  simp

lemma permList_length {α : Type} (p : List ℕ) (d0 : α) (xs : List α) :
    (permList p d0 xs).length = p.length := by
  simp [permList]

lemma permList_getD {α : Type} (p : List ℕ) (d0 : α) (xs : List α)
    {i : ℕ} (hi : i < p.length) :
    (permList p d0 xs).getD i d0 = xs.getD (p.indexOf i) d0 :=
  getD_map_range _ hi d0

lemma permList_permList {α : Type} {n : ℕ} {p q : List ℕ} (d0 : α) {xs : List α}
    (hxs : xs.length = n) (hp : p.length = n) (hq : q.length = n)
    (hpmem : ∀ d, d < n → p.getD d 0 < n)
    (hpnd : p.Nodup) (hqnd : q.Nodup)
    (hqp : ∀ d, d < n → q.getD (p.getD d 0) 0 = d) :
    permList q d0 (permList p d0 xs) = xs := by
  apply List.ext_getElem
  · simp [permList_length, hq, hxs]
  intro i h1 h2
  have hin : i < n := by simpa [permList_length, hq] using h1
  have hpi : p.getD i 0 < n := hpmem i hin
  have hqpi : q.getD (p.getD i 0) 0 = i := hqp i hin
  have hqidx : q.indexOf i = p.getD i 0 := by
    have hg := List.indexOf_getElem hqnd (p.getD i 0) (by omega)
    rwa [← List.getD_eq_getElem q 0 (by omega), hqpi] at hg
  have hpidx : p.indexOf (p.getD i 0) = i := by
    have hg := List.indexOf_getElem hpnd i (by omega)
    rwa [← List.getD_eq_getElem p 0 (by omega)] at hg
  have e1 : (permList q d0 (permList p d0 xs)).getD i d0
      = (permList p d0 xs).getD (q.indexOf i) d0 := permList_getD _ _ _ (by omega)
  have e2 : (permList p d0 xs).getD (p.getD i 0) d0
      = xs.getD (p.indexOf (p.getD i 0)) d0 := permList_getD _ _ _ (by omega)
  have efin : (permList q d0 (permList p d0 xs)).getD i d0 = xs.getD i d0 := by
    rw [e1, hqidx, e2, hpidx]
  rw [← List.getD_eq_getElem (permList q d0 (permList p d0 xs)) d0 h1,
    ← List.getD_eq_getElem xs d0 h2]
  exact efin

lemma permute_permute_data {t : NormTensor} {n : ℕ} {p q : List ℕ}
    (hp : p.length = n) (hq : q.length = n)
    (hpmem : ∀ d, d < n → p.getD d 0 < n)
    (hqp : ∀ d, d < n → q.getD (p.getD d 0) 0 = d)
    (j : List ℕ) (hj : j.length = n) :
    ((t.permute p).permute q).data j = t.data j := by
  show t.data ((List.range p.length).map (fun d =>
      ((List.range q.length).map (fun d => j.getD (q.getD d 0) 0)).getD
        (p.getD d 0) 0)) = t.data j
  congr 1
  apply List.ext_getElem
  · simp [hp, hj]
  intro i h1 h2
  have hin : i < n := by simpa [hp] using h1
  have hpi : p.getD i 0 < n := hpmem i hin
  simp only [List.getElem_map, List.getElem_range]
  rw [hq] at *
  rw [getD_map_range _ (by omega) 0, hqp i hin, List.getD_eq_getElem j 0 (by omega)]

end PermutationLemmas

end TiledArray
namespace TiledArray

open SparseShape

/-- The left shape of the concrete shape-GEMM outer-product scenario. -/
def c7Left : SparseShape := vecShape [1, 2] [1, 1]

/-- The right shape of the concrete shape-GEMM outer-product scenario. -/
def c7Right : SparseShape := vecShape [3, 4] [1, 1]

/-- The GemmHelper of the concrete outer-product scenario: no contracted
ranks, one left dimension, one right dimension. -/
def c7Helper : GemmHelper := ⟨0, 1, 1⟩

/-- C7: for shape-level gemm with zero contracted ranks, the result norms
are the elementwise outer product of the two input norm tensors scaled by
the absolute factor and hard-zeroed below the threshold; at left norms
[1, 2], right norms [3, 4], factor 1 and threshold 0 the result is the
2 by 2 matrix [[3, 4], [6, 8]]. -/
theorem claim_C7_gemm_outer_product :
    (gemm 0 c7Left c7Right 1 c7Helper).tile_norms.extents = [2, 2] ∧
    (gemm 0 c7Left c7Right 1 c7Helper).tile_norms.data [0, 0] = 3 ∧
    (gemm 0 c7Left c7Right 1 c7Helper).tile_norms.data [0, 1] = 4 ∧
    (gemm 0 c7Left c7Right 1 c7Helper).tile_norms.data [1, 0] = 6 ∧
    (gemm 0 c7Left c7Right 1 c7Helper).tile_norms.data [1, 1] = 8 := by
  refine ⟨rfl, ?_, ?_, ?_, ?_⟩ <;>
    norm_num [gemm, c7Left, c7Right, c7Helper, vecShape, vecTensor, hardZero,
      GemmHelper.leftOuterRank]

/-- C2: the hard-zero invariant fails on the code.  With threshold 1/10,
multiplying two one-dimensional shapes whose single stored norm is 1/10
over a tile of size 2 stores the norm 1/50 in the result: the entry is
strictly below the threshold (is_zero holds) yet is not zero, because the
one-dimensional branch of scale_by_size omits the hard-zero step that the
multi-dimensional branch applies. -/
theorem claim_C2_mult_below_threshold_not_zeroed :
    (mult (1/10) (vecShape [1/10] [2]) (vecShape [1/10] [2])).tile_norms.data [0]
      = 1/50 ∧
    is_zero (1/10) (mult (1/10) (vecShape [1/10] [2]) (vecShape [1/10] [2])) [0]
      = true ∧
    ((1 : ℚ)/50 ≠ 0) := by
  refine ⟨?_, ?_, by norm_num⟩ <;>
    norm_num [mult, is_zero, vecShape, vecTensor, scale_by_size,
      NormTensor.mult, NormTensor.binary, NormTensor.dim]

/-- C5: applying perm with a permutation p and then with its inverse q
returns the original shape: the extents, every tile-norm entry at an
in-range multi-index, and the size vectors are all restored exactly. -/
theorem claim_C5_perm_round_trip (s : SparseShape) (n : ℕ) (p q : List ℕ)
    (hext : s.tile_norms.extents.length = n)
    (hsv : s.size_vectors.length = n)
    (hp : p.length = n) (hq : q.length = n)
    (hpmem : ∀ d, d < n → p.getD d 0 < n)
    (hpnd : p.Nodup) (hqnd : q.Nodup)
    (hqp : ∀ d, d < n → q.getD (p.getD d 0) 0 = d) :
    ((s.perm p).perm q).tile_norms.extents = s.tile_norms.extents ∧
    (∀ j : List ℕ, j.length = n →
      ((s.perm p).perm q).tile_norms.data j = s.tile_norms.data j) ∧
    ((s.perm p).perm q).size_vectors = s.size_vectors := by
  refine ⟨?_, ?_, ?_⟩
  · exact permList_permList 0 hext hp hq hpmem hpnd hqnd hqp
  · intro j hj
    exact permute_permute_data hp hq hpmem hqp j hj
  · show permList q [] (permList p [] s.size_vectors) = s.size_vectors
    exact permList_permList [] hsv hp hq hpmem hpnd hqnd hqp

/-- Concrete two-dimensional shape used to witness the perm round trip. -/
def c5Shape : SparseShape :=
  ⟨⟨[2, 3], fun j => ((10 * j.headD 0 + j.getD 1 0 : ℕ) : ℚ)⟩, [[1, 2], [3, 4, 5]]⟩

/-- C5 witness: the round trip through the transposition [1, 0] restores
the concrete shape. -/
theorem claim_C5_perm_round_trip_witness :
    ((c5Shape.perm [1, 0]).perm [1, 0]).tile_norms.extents
      = c5Shape.tile_norms.extents ∧
    ((c5Shape.perm [1, 0]).perm [1, 0]).tile_norms.data [1, 2]
      = c5Shape.tile_norms.data [1, 2] ∧
    ((c5Shape.perm [1, 0]).perm [1, 0]).size_vectors = c5Shape.size_vectors :=
  ⟨(claim_C5_perm_round_trip c5Shape 2 [1, 0] [1, 0] rfl rfl rfl rfl
      (by decide) (by decide) (by decide) (by decide)).1,
   (claim_C5_perm_round_trip c5Shape 2 [1, 0] [1, 0] rfl rfl rfl rfl
      (by decide) (by decide) (by decide) (by decide)).2.1 [1, 2] rfl,
   (claim_C5_perm_round_trip c5Shape 2 [1, 0] [1, 0] rfl rfl rfl rfl
      (by decide) (by decide) (by decide) (by decide)).2.2⟩

/-- C6: every subt overload returns exactly the shape returned by the
corresponding add overload on the same operands. -/
theorem claim_C6_subt_equals_add (threshold : ℚ) (s o : SparseShape)
    (factor v : ℚ) (p : List ℕ) (sqrtFn : ℚ → ℚ) :
    s.subt o = s.add o ∧
    s.subtPerm o p = s.addPerm o p ∧
    subtFactor threshold s o factor = addFactor threshold s o factor ∧
    subtFactorPerm threshold s o factor p = addFactorPerm threshold s o factor p ∧
    subtConst sqrtFn threshold s v = addConst sqrtFn threshold s v ∧
    subtConstPerm sqrtFn threshold s v p = addConstPerm sqrtFn threshold s v p :=
  ⟨rfl, rfl, rfl, rfl, rfl, rfl⟩

/-- C9 counterexample: the threshold setter does not fail on a
non-positive value; at the concrete input -1 it stores the value and
returns no PreconditionViolated error. -/
theorem claim_C9_threshold_cex :
    setThreshold (-1) = Except.ok (-1) ∧
    setThreshold (-1) ≠ Except.error ShapeError.preconditionViolated :=
  ⟨rfl, by simp [setThreshold]⟩

/-- C9 amended: the threshold setter stores every value unconditionally,
non-positive values included, with no validation and no error. -/
theorem claim_C9_threshold_amended (thresh : ℚ) :
    setThreshold thresh = Except.ok thresh := rfl

/-- C10: validate returns false on the default-constructed empty shape for
every range, and on a non-empty shape returns true exactly when the given
range equals the range of the stored tile-norm tensor. -/
theorem claim_C10_validate :
    (∀ r : List ℕ, validate none r = false) ∧
    (∀ (s : SparseShape) (r : List ℕ),
      validate (some s) r = true ↔ r = s.tile_norms.extents) :=
  ⟨fun _ => rfl, fun s r => by simp [validate]⟩

end TiledArray

namespace TiledArray

/-- The reduction operation interface consumed by ReduceTask, from the
source: an identity constructor, a result-with-result combine, a
result-with-argument reduction, a fused two-argument reduction, and a
final post-processing pass. -/
structure ReduceOp (R A : Type) where
  identity : R
  combine : R → R → R
  consume : R → A → R
  consumePair : R → A → A → R
  post : R → R

/-- A task spawned by ReduceTaskImpl::ready, from the source: either
reduce_result_object carrying the claimed ready result and the new
object, or reduce_object_object carrying the new object and the
previously parked one.  Objects carry a numeric identity so that
consumption and destruction can be counted. -/
inductive RTask (R A : Type) where
  | resultObj (r : R) (obj : ℕ × A)
  | objObj (o1 o2 : ℕ × A)
deriving DecidableEq

/-- Events of a reduction, recorded in program order: an op application
consuming the argument of one object, a fused op application on two
objects, an op application combining two results, the destruction of an
object, the dependency-counter decrement associated with an object, entry
into the drain loop of reduce(), and parking a result. -/
inductive REvent where
  | opApp (i : ℕ)
  | opPair (i j : ℕ)
  | combineRes
  | destroy (i : ℕ)
  | decCount (i : ℕ)
  | drainEnter
  | park
deriving DecidableEq

/-- The state of one submitted ReduceTaskImpl, from the source: the two
slots protected by the lock (ready_result_ and ready_object_), the queue
of spawned but not yet executed reduction tasks, the added arguments
whose futures are not yet ready, the dependency counter (one unit per
unconsumed argument; the submit sentinel has already been released), the
result future, the completion-callback flag, and bookkeeping logs of
consumed ids, destroyed ids and emitted events. -/
structure RState (R A : Type) where
  readyResult : Option R
  readyObject : Option (ℕ × A)
  pending : List (RTask R A)
  remaining : List (ℕ × A)
  deps : ℕ
  finished : Option R
  completionFired : Bool
  consumed : List ℕ
  destroyed : List ℕ
  trace : List REvent
deriving DecidableEq

/-- The state right after construction, adding every argument and calling
submit: ready_result_ holds the identity made by op(), no argument is
ready yet, and the dependency counter holds one unit per argument. -/
def initState {R A : Type} (op : ReduceOp R A) (args : List (ℕ × A)) : RState R A :=
  { readyResult := some op.identity
    readyObject := none
    pending := []
    remaining := args
    deps := args.length
    finished := none
    completionFired := false
    consumed := []
    destroyed := []
    trace := [] }

/-- The body of ReduceTaskImpl::ready, from the source: if ready_result_
is set, claim it and spawn reduce_result_object on it and the new object;
otherwise if ready_object_ is set, claim it and spawn
reduce_object_object on the new object and it; otherwise park the new
object in ready_object_. -/
def readyLogic {R A : Type} (s : RState R A) (a : ℕ × A) : RState R A :=
  match s.readyResult with
  | some r =>
      { s with readyResult := none, pending := s.pending ++ [RTask.resultObj r a] }
  | none =>
      match s.readyObject with
      | some b =>
          { s with readyObject := none, pending := s.pending ++ [RTask.objObj a b] }
      | none => { s with readyObject := some a }

/-- One argument future becomes ready: the argument at position n of the
unready list notifies its ReduceObject, which invokes ready on the
parent. -/
def arriveStep {R A : Type} (s : RState R A) (a : ℕ × A) (n : ℕ) : RState R A :=
  readyLogic { s with remaining := s.remaining.eraseIdx n } a

/-- The drain loop of ReduceTaskImpl::reduce, from the source, run as one
atomic step of the model: while holding a result, first consume a parked
ready object (op, destroy, decrement) if one is present, then merge a
parked ready result if one is present, and finally park the result in
ready_result_ and leave.  The loop of the source terminates exactly when
both slots are empty, so its atomic execution is this four-way case
split. -/
def drainStep {R A : Type} (op : ReduceOp R A) (r : R) (s : RState R A) : RState R A :=
  match s.readyObject, s.readyResult with
  | some (i, v), some rr =>
      { s with readyObject := none
               readyResult := some (op.combine (op.consume r v) rr)
               deps := s.deps - 1
               consumed := s.consumed ++ [i]
               destroyed := s.destroyed ++ [i]
               trace := s.trace ++ [REvent.opApp i, REvent.destroy i,
                 REvent.decCount i, REvent.combineRes, REvent.park] }
  | some (i, v), none =>
      { s with readyObject := none
               readyResult := some (op.consume r v)
               deps := s.deps - 1
               consumed := s.consumed ++ [i]
               destroyed := s.destroyed ++ [i]
               trace := s.trace ++ [REvent.opApp i, REvent.destroy i,
                 REvent.decCount i, REvent.park] }
  | none, some rr =>
      { s with readyResult := some (op.combine r rr)
               trace := s.trace ++ [REvent.combineRes, REvent.park] }
  | none, none =>
      { s with readyResult := some r
               trace := s.trace ++ [REvent.park] }

/-- The two task bodies spawned by ready, from the source.
reduce_result_object applies op to the claimed result and the object
argument, destroys the object, runs the drain loop, and only then
decrements the dependency counter for the object.  reduce_object_object
builds a fresh identity with op(), applies the fused two-argument op,
destroys both objects, runs the drain loop, and then decrements the
counter twice. -/
def runTask {R A : Type} (op : ReduceOp R A) (t : RTask R A) (s : RState R A) :
    RState R A :=
  match t with
  | RTask.resultObj r (i, v) =>
      let s1 := { s with consumed := s.consumed ++ [i]
                         destroyed := s.destroyed ++ [i]
                         trace := s.trace ++ [REvent.opApp i, REvent.destroy i,
                           REvent.drainEnter] }
      let s2 := drainStep op (op.consume r v) s1
      { s2 with deps := s2.deps - 1, trace := s2.trace ++ [REvent.decCount i] }
  | RTask.objObj (i, v) (j, w) =>
      let s1 := { s with consumed := s.consumed ++ [i, j]
                         destroyed := s.destroyed ++ [i, j]
                         trace := s.trace ++ [REvent.opPair i j, REvent.destroy i,
                           REvent.destroy j, REvent.drainEnter] }
      let s2 := drainStep op (op.consumePair op.identity v w) s1
      { s2 with deps := s2.deps - 2
                trace := s2.trace ++ [REvent.decCount i, REvent.decCount j] }

/-- The terminal task body ReduceTaskImpl::run, from the source, invoked
when the dependency counter reaches zero: set the result future to the
post-processed surviving ready result and fire the completion
callback. -/
def finishStep {R A : Type} (op : ReduceOp R A) (r : R) (s : RState R A) : RState R A :=
  { s with finished := some (op.post r), completionFired := true }

/-- The nondeterministic small-step relation of one submitted reduction:
an unready argument may become ready, a spawned task may execute, and the
terminal step may run once the dependency counter reaches zero while the
result future is still unset. -/
inductive RStep {R A : Type} (op : ReduceOp R A) : RState R A → RState R A → Prop where
  | arrive (s : RState R A) (n : ℕ) (a : ℕ × A) (h : s.remaining[n]? = some a) :
      RStep op s (arriveStep s a n)
  | run (s : RState R A) (n : ℕ) (t : RTask R A) (h : s.pending[n]? = some t) :
      RStep op s (runTask op t { s with pending := s.pending.eraseIdx n })
  | finish (s : RState R A) (r : R) (h0 : s.deps = 0) (h1 : s.readyResult = some r)
      (h2 : s.finished = none) :
      RStep op s (finishStep op r s)

/-- Reachability of a state from the freshly submitted reduction. -/
def RReach {R A : Type} (op : ReduceOp R A) (args : List (ℕ × A)) (s : RState R A) :
    Prop :=
  Relation.ReflTransGen (RStep op) (initState op args) s

/-- The integer-sum reduction operation of the concrete scenario: the
identity is 0, every reduction form adds, and the post-processing pass is
the identity function. -/
def sumOp : ReduceOp ℤ ℤ :=
  { identity := 0
    combine := fun r x => r + x
    consume := fun r x => r + x
    consumePair := fun r x y => r + x + y
    post := fun r => r }

/-- Number of unconsumed objects held by a spawned task. -/
def taskObjCount {R A : Type} : RTask R A → ℕ
  | RTask.resultObj _ _ => 1
  | RTask.objObj _ _ => 2

/-- Identities of the unconsumed objects held by a spawned task. -/
def taskIds {R A : Type} : RTask R A → List ℕ
  | RTask.resultObj _ (i, _) => [i]
  | RTask.objObj (i, _) (j, _) => [i, j]

/-- Identities held in the ready-object slot. -/
def obIds {A : Type} : Option (ℕ × A) → List ℕ
  | some (i, _) => [i]
  | none => []

/-- Number of unconsumed objects across the whole state: arguments whose
futures are unready, objects held by spawned tasks, and the parked ready
object. -/
def objsIn {R A : Type} (s : RState R A) : ℕ :=
  s.remaining.length + (s.pending.map taskObjCount).sum + (obIds s.readyObject).length

/-- Occurrences of an argument identity among the unconsumed objects of a
state. -/
def idCountIn {R A : Type} (s : RState R A) (i : ℕ) : ℕ :=
  (s.remaining.map Prod.fst).count i + (obIds s.readyObject).count i +
    (s.pending.flatMap taskIds).count i

end TiledArray

namespace TiledArray

section ReduceInvariants

lemma list_decomp {α : Type} {l : List α} {n : ℕ} {a : α} (h : l[n]? = some a) :
    l = l.take n ++ a :: l.drop (n + 1) ∧ l.eraseIdx n = l.take n ++ l.drop (n + 1) := by
  have hn : n < l.length := by
    by_contra hc
    push_neg at hc
    rw [List.getElem?_eq_none hc] at h
    cases h
  have ha : l[n] = a := by
    have h2 := List.getElem?_eq_getElem hn
    rw [h] at h2
    exact (Option.some_inj.mp h2).symm
  refine ⟨?_, List.eraseIdx_eq_take_drop_succ l n⟩
  conv_lhs => rw [← List.take_append_drop n l]
  rw [List.drop_eq_getElem_cons hn, ha]

lemma pending_nil_of_sum_zero {R A : Type} {l : List (RTask R A)}
    (h : (l.map taskObjCount).sum = 0) : l = [] := by
  cases l with
  | nil => rfl
  | cons t ts =>
    exfalso
    cases t <;> simp [taskObjCount] at h

lemma obIds_nil_iff {A : Type} (o : Option (ℕ × A)) : (obIds o).length = 0 ↔ o = none := by
  cases o with
  | none => simp [obIds]
  | some a => cases a; simp [obIds]

theorem rstate_deps_inv {R A : Type} (op : ReduceOp R A) (args : List (ℕ × A))
    (s : RState R A) (h : RReach op args s) :
    s.deps = objsIn s ∧
    (s.finished ≠ none → s.remaining = [] ∧ s.pending = [] ∧ s.readyObject = none) := by
  induction h with
  | refl => simp [initState, objsIn, obIds]
  | tail hab hbc ih =>
    obtain ⟨ih1, ih2⟩ := ih
    rename_i b c
    cases hbc with
    | arrive n a hget =>
      obtain ⟨hdec, herase⟩ := list_decomp hget
      have hlen : b.remaining.length =
          (List.take n b.remaining).length + (List.drop (n + 1) b.remaining).length + 1 := by
        conv_lhs => rw [hdec]
        simp
        omega
      have hfin : b.finished = none := by
        by_contra hf
        have hempty := (ih2 hf).1
        rw [hempty] at hget
        simp at hget
      simp only [objsIn] at ih1
      constructor
      · rcases hrr : b.readyResult with _ | r
        · rcases hro : b.readyObject with _ | ⟨k, w⟩
          · simp only [arriveStep, readyLogic, hrr, hro, herase, objsIn, obIds,
              List.length_append, List.length_cons, List.length_nil]
            rw [hro] at ih1
            simp only [obIds, List.length_nil] at ih1
            omega
          · simp only [arriveStep, readyLogic, hrr, hro, herase, objsIn, obIds,
              List.length_append, List.length_cons, List.length_nil, List.map_append,
              List.sum_append, List.map_cons, List.map_nil, List.sum_cons,
              List.sum_nil, taskObjCount]
            rw [hro] at ih1
            simp only [obIds, List.length_cons, List.length_nil] at ih1
            omega
        · simp only [arriveStep, readyLogic, hrr, herase, objsIn,
            List.length_append, List.length_cons, List.length_nil, List.map_append,
            List.sum_append, List.map_cons, List.map_nil, List.sum_cons,
            List.sum_nil, taskObjCount]
          omega
      · intro hf
        exfalso
        apply hf
        rcases hrr : b.readyResult with _ | r <;>
          rcases hro : b.readyObject with _ | ⟨k, w⟩ <;>
          simp [arriveStep, readyLogic, hrr, hro, hfin]
    | run n t hget =>
      obtain ⟨hdec, herase⟩ := list_decomp hget
      have hsum : (b.pending.map taskObjCount).sum =
          ((b.pending.take n).map taskObjCount).sum + taskObjCount t +
            ((b.pending.drop (n + 1)).map taskObjCount).sum := by
        conv_lhs => rw [hdec]
        simp
        omega
      have hfin : b.finished = none := by
        by_contra hf
        have hempty := (ih2 hf).2.1
        rw [hempty] at hget
        simp at hget
      simp only [objsIn] at ih1
      constructor
      · rcases t with ⟨r, i, v⟩ | ⟨⟨i, v⟩, j, w⟩ <;>
          rcases hro : b.readyObject with _ | ⟨k, u⟩ <;>
          rcases hrr : b.readyResult with _ | r0 <;>
          · simp only [runTask, drainStep, herase, hro, hrr, objsIn, obIds,
              List.length_append, List.map_append, List.sum_append,
              List.length_cons, List.length_nil, List.map_cons, List.map_nil,
              List.sum_cons, List.sum_nil, taskObjCount] at *
            omega
      · intro hf
        exfalso
        apply hf
        rcases t with ⟨r, i, v⟩ | ⟨⟨i, v⟩, j, w⟩ <;>
          rcases hro : b.readyObject with _ | ⟨k, u⟩ <;>
          rcases hrr : b.readyResult with _ | r0 <;>
          simp [runTask, drainStep, herase, hro, hrr, hfin]
    | finish r h0 h1 h2 =>
      have hz : objsIn b = 0 := by omega
      have hrem : b.remaining = [] := by
        have hl : b.remaining.length = 0 := by
          simp only [objsIn] at hz
          omega
        exact List.length_eq_zero.mp hl
      have hpend : b.pending = [] := by
        apply pending_nil_of_sum_zero
        simp only [objsIn] at hz
        omega
      have hro : b.readyObject = none := by
        apply (obIds_nil_iff b.readyObject).mp
        simp only [objsIn] at hz
        omega
      refine ⟨?_, fun _ => ⟨hrem, hpend, hro⟩⟩
      simp only [finishStep, objsIn]
      simp only [objsIn] at ih1
      omega

end ReduceInvariants

end TiledArray

namespace TiledArray

theorem rstate_ids_inv {R A : Type} (op : ReduceOp R A) (args : List (ℕ × A))
    (s : RState R A) (h : RReach op args s) :
    (∀ i : ℕ, idCountIn s i + s.destroyed.count i = (args.map Prod.fst).count i) ∧
    (∀ i : ℕ, s.consumed.count i = s.destroyed.count i) := by
  induction h with
  | refl => simp [initState, idCountIn, obIds]
  | tail hab hbc ih =>
    obtain ⟨ih1, ih2⟩ := ih
    rename_i b c
    cases hbc with
    | arrive n a hget =>
      obtain ⟨hdec, herase⟩ := list_decomp hget
      obtain ⟨a1, a2⟩ := a
      have hcnt : ∀ i : ℕ, ((b.remaining.map Prod.fst).count i : ℕ) =
          (((b.remaining.take n).map Prod.fst).count i) +
            (if a1 = i then 1 else 0) +
            (((b.remaining.drop (n + 1)).map Prod.fst).count i) := by
        intro i
        conv_lhs => rw [hdec]
        simp [List.count_append, List.count_cons]
        split_ifs <;> omega
      constructor
      · intro i
        have h1 := ih1 i
        have h2 := hcnt i
        simp only [idCountIn] at h1
        rcases hrr : b.readyResult with _ | r
        · rcases hro : b.readyObject with _ | ⟨k, w⟩
          · simp only [arriveStep, readyLogic, hrr, hro, herase, idCountIn, obIds,
              List.map_append, List.count_append, List.count_cons, List.count_nil,
              List.flatMap_append, List.flatMap_cons, List.flatMap_nil, taskIds,
              List.append_nil]
            rw [hro] at h1
            simp only [obIds, List.count_nil] at h1
            simp only [beq_iff_eq] at *
            split_ifs at * <;> omega
          · simp only [arriveStep, readyLogic, hrr, hro, herase, idCountIn, obIds,
              List.map_append, List.count_append, List.flatMap_append,
              List.flatMap_cons, List.flatMap_nil, taskIds, List.count_cons,
              List.count_nil, List.append_nil]
            rw [hro] at h1
            simp only [obIds, List.count_cons, List.count_nil] at h1
            simp only [beq_iff_eq] at *
            split_ifs at * <;> omega
        · simp only [arriveStep, readyLogic, hrr, herase, idCountIn,
            List.map_append, List.count_append, List.flatMap_append,
            List.flatMap_cons, List.flatMap_nil, taskIds, List.count_cons,
            List.count_nil, List.append_nil]
          simp only [beq_iff_eq] at *
          split_ifs at * <;> omega
      · intro i
        have h2 := ih2 i
        rcases hrr : b.readyResult with _ | r <;>
          rcases hro : b.readyObject with _ | ⟨k, w⟩ <;>
          simp only [arriveStep, readyLogic, hrr, hro, herase] <;>
          exact h2
    | run n t hget =>
      obtain ⟨hdec, herase⟩ := list_decomp hget
      have hcnt : ∀ i : ℕ, ((b.pending.flatMap taskIds).count i : ℕ) =
          (((b.pending.take n).flatMap taskIds).count i) +
            ((taskIds t).count i) +
            (((b.pending.drop (n + 1)).flatMap taskIds).count i) := by
        intro i
        conv_lhs => rw [hdec]
        simp [List.flatMap_append, List.flatMap_cons, List.count_append]
        omega
      constructor
      · intro i
        have h1 := ih1 i
        have h2 := hcnt i
        simp only [idCountIn] at h1
        rcases t with ⟨r, x, v⟩ | ⟨⟨x, v⟩, y, w⟩ <;>
          rcases hro : b.readyObject with _ | ⟨k, u⟩ <;>
          rcases hrr : b.readyResult with _ | r0 <;>
          · simp only [runTask, drainStep, herase, hro, hrr, idCountIn, obIds,
              taskIds, List.flatMap_append, List.count_append, List.count_cons,
              List.count_nil, List.append_nil] at *
            simp only [beq_iff_eq] at *
            split_ifs at * <;> omega
      · intro i
        have h2 := ih2 i
        rcases t with ⟨r, x, v⟩ | ⟨⟨x, v⟩, y, w⟩ <;>
          rcases hro : b.readyObject with _ | ⟨k, u⟩ <;>
          rcases hrr : b.readyResult with _ | r0 <;>
          · simp only [runTask, drainStep, herase, hro, hrr, List.count_append,
              List.count_cons, List.count_nil] at *
            simp only [beq_iff_eq] at *
            split_ifs at * <;> omega
    | finish r h0 h1 h2 =>
      exact ⟨fun i => ih1 i, fun i => ih2 i⟩

end TiledArray

namespace TiledArray

/-- Values held in the ready-object slot of the integer-sum machine. -/
def obVals : Option (ℕ × ℤ) → List ℤ
  | some (_, v) => [v]
  | none => []

/-- Partial sum carried by a spawned task of the integer-sum machine: a
reduce_result_object task carries its claimed result plus its object
value, a reduce_object_object task carries its two object values. -/
def taskVal : RTask ℤ ℤ → ℤ
  | RTask.resultObj r (_, v) => r + v
  | RTask.objObj (_, v) (_, w) => v + w

/-- Total mass of an integer-sum reduction state: the parked result, the
parked object, the contents of spawned tasks, and the values of arguments
whose futures are not yet ready. -/
def totalOf (s : RState ℤ ℤ) : ℤ :=
  s.readyResult.getD 0 + (obVals s.readyObject).sum +
    (s.pending.map taskVal).sum + (s.remaining.map Prod.snd).sum

theorem rstate_total_inv (args : List (ℕ × ℤ)) (s : RState ℤ ℤ)
    (h : RReach sumOp args s) :
    (s.finished = none → totalOf s = (args.map Prod.snd).sum) ∧
    (∀ v : ℤ, s.finished = some v → v = (args.map Prod.snd).sum) := by
  induction h with
  | refl =>
    constructor
    · intro _
      simp [initState, totalOf, obVals, sumOp]
    · intro v hv
      simp [initState] at hv
  | tail hab hbc ih =>
    rename_i b c
    obtain ⟨ih1, ih2⟩ := ih
    cases hbc with
    | arrive n a hget =>
      obtain ⟨hdec, herase⟩ := list_decomp hget
      obtain ⟨a1, a2⟩ := a
      have hbfin : b.finished = none := by
        by_contra hf
        have hempty := ((rstate_deps_inv sumOp args b hab).2 hf).1
        rw [hempty] at hget
        simp at hget
      have hTot := ih1 hbfin
      have hsum : (b.remaining.map Prod.snd).sum =
          ((b.remaining.take n).map Prod.snd).sum + a2 +
            ((b.remaining.drop (n + 1)).map Prod.snd).sum := by
        conv_lhs => rw [hdec]
        simp only [List.map_append, List.map_cons, List.sum_append, List.sum_cons]
        omega
      constructor
      · intro _
        simp only [totalOf] at hTot
        rcases hrr : b.readyResult with _ | r
        · rcases hro : b.readyObject with _ | ⟨k, u⟩
          · simp only [arriveStep, readyLogic, hrr, hro, herase, totalOf, obVals,
              List.map_append, List.sum_append, List.map_cons, List.map_nil,
              List.sum_cons, List.sum_nil, Option.getD_none, Option.getD_some]
            rw [hro] at hTot
            rw [hrr] at hTot
            simp only [obVals, List.sum_nil, Option.getD_none] at hTot
            omega
          · simp only [arriveStep, readyLogic, hrr, hro, herase, totalOf, obVals,
              taskVal, List.map_append, List.sum_append, List.map_cons,
              List.map_nil, List.sum_cons, List.sum_nil, Option.getD_none,
              Option.getD_some]
            rw [hro, hrr] at hTot
            simp only [obVals, List.sum_cons, List.sum_nil, Option.getD_none] at hTot
            omega
        · simp only [arriveStep, readyLogic, hrr, herase, totalOf,
            taskVal, List.map_append, List.sum_append, List.map_cons,
            List.map_nil, List.sum_cons, List.sum_nil, Option.getD_none,
            Option.getD_some]
          rw [hrr] at hTot
          simp only [Option.getD_some] at hTot
          omega
      · intro v hv
        rcases hrr : b.readyResult with _ | r <;>
          rcases hro : b.readyObject with _ | ⟨k, u⟩ <;>
          simp [arriveStep, readyLogic, hrr, hro, hbfin] at hv
    | run n t hget =>
      obtain ⟨hdec, herase⟩ := list_decomp hget
      have hbfin : b.finished = none := by
        by_contra hf
        have hempty := ((rstate_deps_inv sumOp args b hab).2 hf).2.1
        rw [hempty] at hget
        simp at hget
      have hTot := ih1 hbfin
      have hsum : (b.pending.map taskVal).sum =
          ((b.pending.take n).map taskVal).sum + taskVal t +
            ((b.pending.drop (n + 1)).map taskVal).sum := by
        conv_lhs => rw [hdec]
        simp only [List.map_append, List.map_cons, List.sum_append, List.sum_cons]
        omega
      constructor
      · intro _
        simp only [totalOf] at hTot
        rcases t with ⟨r, x, v⟩ | ⟨⟨x, v⟩, y, w⟩ <;>
          rcases hro : b.readyObject with _ | ⟨k, u⟩ <;>
          rcases hrr : b.readyResult with _ | r0 <;>
          · simp only [runTask, drainStep, herase, hro, hrr, totalOf, obVals,
              taskVal, sumOp, List.map_append, List.sum_append, List.map_cons,
              List.map_nil, List.sum_cons, List.sum_nil, Option.getD_none,
              Option.getD_some] at *
            omega
      · intro v hv
        rcases t with ⟨r, x, vv⟩ | ⟨⟨x, vv⟩, y, w⟩ <;>
          rcases hro : b.readyObject with _ | ⟨k, u⟩ <;>
          rcases hrr : b.readyResult with _ | r0 <;>
          simp [runTask, drainStep, herase, hro, hrr, hbfin] at hv
    | finish r h0 h1 h2 =>
      have hd := (rstate_deps_inv sumOp args b hab).1
      have hz : objsIn b = 0 := by omega
      have hrem : b.remaining = [] := by
        have hl : b.remaining.length = 0 := by
          simp only [objsIn] at hz
          omega
        exact List.length_eq_zero.mp hl
      have hpend : b.pending = [] := by
        apply pending_nil_of_sum_zero
        simp only [objsIn] at hz
        omega
      have hro : b.readyObject = none := by
        apply (obIds_nil_iff b.readyObject).mp
        simp only [objsIn] at hz
        omega
      have hTot := ih1 h2
      have hval : r = (args.map Prod.snd).sum := by
        simp only [totalOf, hrem, hpend, hro, h1, obVals, List.map_nil,
          List.sum_nil, Option.getD_some] at hTot
        omega
      constructor
      · intro hfn
        simp [finishStep] at hfn
      · intro v hv
        simp only [finishStep, Option.some_inj] at hv
        rw [← hv, ← hval]
        rfl

end TiledArray

namespace TiledArray

lemma rreach_nil_cases {R A : Type} (op : ReduceOp R A) (s : RState R A)
    (h : RReach op [] s) :
    s = initState op [] ∨ s = finishStep op op.identity (initState op []) := by
  induction h with
  | refl => exact Or.inl rfl
  | tail hab hbc ih =>
    rename_i b c
    rcases ih with rfl | rfl
    · cases hbc with
      | arrive n a hget => simp [initState] at hget
      | run n t hget => simp [initState] at hget
      | finish r h0 h1 h2 =>
        right
        have hr : op.identity = r := by
          simpa [initState] using h1
        rw [← hr]
    · cases hbc with
      | arrive n a hget => simp [initState, finishStep] at hget
      | run n t hget => simp [initState, finishStep] at hget
      | finish r h0 h1 h2 => simp [finishStep] at h2

/-- C8: a reduction submitted with zero arguments resolves its result
future to the post-processed identity op(op()) and fires the completion
callback. -/
theorem claim_C8_zero_args {R A : Type} (op : ReduceOp R A) (s : RState R A)
    (v : R) (h : RReach op [] s) (hv : s.finished = some v) :
    v = op.post op.identity ∧ s.completionFired = true := by
  rcases rreach_nil_cases op s h with rfl | rfl
  · simp [initState] at hv
  · refine ⟨?_, rfl⟩
    have hs : some (op.post op.identity) = some v := by
      simpa [finishStep, initState] using hv
    exact (Option.some_inj.mp hs).symm

/-- C8 witness: the concrete zero-argument run of the integer-sum
reduction finishes with the post-processed identity 0 and the completion
callback fired. -/
theorem claim_C8_zero_args_witness :
    (0 : ℤ) = sumOp.post sumOp.identity ∧
      (finishStep sumOp sumOp.identity (initState sumOp [])).completionFired = true :=
  claim_C8_zero_args sumOp _ 0
    (Relation.ReflTransGen.single (RStep.finish _ sumOp.identity rfl rfl rfl)) rfl

/-- C3: once the result future is set, every added argument has been
consumed by exactly one op application and destroyed exactly once. -/
theorem claim_C3_each_arg_once {R A : Type} (op : ReduceOp R A)
    (args : List (ℕ × A)) (s : RState R A) (v : R)
    (hnd : (args.map Prod.fst).Nodup) (h : RReach op args s)
    (hf : s.finished = some v) (i : ℕ) (hi : i ∈ args.map Prod.fst) :
    s.consumed.count i = 1 ∧ s.destroyed.count i = 1 := by
  obtain ⟨hids1, hids2⟩ := rstate_ids_inv op args s h
  have hempty := (rstate_deps_inv op args s h).2 (by simp [hf])
  have hzero : idCountIn s i = 0 := by
    simp [idCountIn, hempty.1, hempty.2.1, hempty.2.2, obIds]
  have hone : (args.map Prod.fst).count i = 1 := List.count_eq_one_of_mem hnd hi
  have h1 := hids1 i
  have h2 := hids2 i
  omega

/-- Arguments of the concrete two-argument run used to witness C3. -/
def c3Args : List (ℕ × ℤ) := [(0, 4), (1, 6)]

/-- States of the concrete two-argument run used to witness C3. -/
def c3S1 : RState ℤ ℤ := arriveStep (initState sumOp c3Args) (0, 4) 0

/-- Second state of the C3 witness run. -/
def c3S2 : RState ℤ ℤ :=
  runTask sumOp (RTask.resultObj 0 (0, 4)) { c3S1 with pending := c3S1.pending.eraseIdx 0 }

/-- Third state of the C3 witness run. -/
def c3S3 : RState ℤ ℤ := arriveStep c3S2 (1, 6) 0

/-- Fourth state of the C3 witness run. -/
def c3S4 : RState ℤ ℤ :=
  runTask sumOp (RTask.resultObj 4 (1, 6)) { c3S3 with pending := c3S3.pending.eraseIdx 0 }

/-- Final state of the C3 witness run. -/
def c3Final : RState ℤ ℤ := finishStep sumOp 10 c3S4

/-- C3 witness: in the completed concrete run, argument 0 was consumed
exactly once and destroyed exactly once. -/
theorem claim_C3_each_arg_once_witness :
    c3Final.consumed.count 0 = 1 ∧ c3Final.destroyed.count 0 = 1 := by
  have h1 : RReach sumOp c3Args c3S1 :=
    Relation.ReflTransGen.single (RStep.arrive _ 0 (0, 4) rfl)
  have h2 : RReach sumOp c3Args c3S2 :=
    Relation.ReflTransGen.tail h1 (RStep.run _ 0 (RTask.resultObj 0 (0, 4)) rfl)
  have h3 : RReach sumOp c3Args c3S3 :=
    Relation.ReflTransGen.tail h2 (RStep.arrive _ 0 (1, 6) rfl)
  have h4 : RReach sumOp c3Args c3S4 :=
    Relation.ReflTransGen.tail h3 (RStep.run _ 0 (RTask.resultObj 4 (1, 6)) rfl)
  have h5 : RReach sumOp c3Args c3Final :=
    Relation.ReflTransGen.tail h4 (RStep.finish _ 10 rfl rfl rfl)
  exact claim_C3_each_arg_once sumOp c3Args c3Final 10 (by decide) h5 rfl 0 (by decide)

end TiledArray

namespace TiledArray

/-- Arguments of the concrete six-argument scenario: futures holding the
values 3, 1, 4, 1, 5 and 9. -/
def c1Args : List (ℕ × ℤ) := [(0, 3), (1, 1), (2, 4), (3, 1), (4, 5), (5, 9)]

/-- C1: for the integer-sum reduction over the six futures holding
3, 1, 4, 1, 5 and 9, every execution order that sets the result future
sets it to 23: the reduced value does not depend on the arrival order. -/
theorem claim_C1_sum_deterministic (s : RState ℤ ℤ) (h : RReach sumOp c1Args s)
    (v : ℤ) (hv : s.finished = some v) : v = 23 := by
  have hval := (rstate_total_inv c1Args s h).2 v hv
  rw [hval]
  decide

/-- State 1 of the C1 witness run. -/
def c1S1 : RState ℤ ℤ := arriveStep (initState sumOp c1Args) (0, 3) 0

/-- State 2 of the C1 witness run. -/
def c1S2 : RState ℤ ℤ :=
  runTask sumOp (RTask.resultObj 0 (0, 3)) { c1S1 with pending := c1S1.pending.eraseIdx 0 }

/-- State 3 of the C1 witness run. -/
def c1S3 : RState ℤ ℤ := arriveStep (c1S2) (1, 1) 0

/-- State 4 of the C1 witness run. -/
def c1S4 : RState ℤ ℤ :=
  runTask sumOp (RTask.resultObj 3 (1, 1)) { c1S3 with pending := c1S3.pending.eraseIdx 0 }

/-- State 5 of the C1 witness run. -/
def c1S5 : RState ℤ ℤ := arriveStep (c1S4) (2, 4) 0

/-- State 6 of the C1 witness run. -/
def c1S6 : RState ℤ ℤ :=
  runTask sumOp (RTask.resultObj 4 (2, 4)) { c1S5 with pending := c1S5.pending.eraseIdx 0 }

/-- State 7 of the C1 witness run. -/
def c1S7 : RState ℤ ℤ := arriveStep (c1S6) (3, 1) 0

/-- State 8 of the C1 witness run. -/
def c1S8 : RState ℤ ℤ :=
  runTask sumOp (RTask.resultObj 8 (3, 1)) { c1S7 with pending := c1S7.pending.eraseIdx 0 }

/-- State 9 of the C1 witness run. -/
def c1S9 : RState ℤ ℤ := arriveStep (c1S8) (4, 5) 0

/-- State 10 of the C1 witness run. -/
def c1S10 : RState ℤ ℤ :=
  runTask sumOp (RTask.resultObj 9 (4, 5)) { c1S9 with pending := c1S9.pending.eraseIdx 0 }

/-- State 11 of the C1 witness run. -/
def c1S11 : RState ℤ ℤ := arriveStep (c1S10) (5, 9) 0

/-- State 12 of the C1 witness run. -/
def c1S12 : RState ℤ ℤ :=
  runTask sumOp (RTask.resultObj 14 (5, 9)) { c1S11 with pending := c1S11.pending.eraseIdx 0 }

/-- Final state of the C1 witness run. -/
def c1Final : RState ℤ ℤ := finishStep sumOp 23 c1S12

/-- C1 witness: one complete execution of the six-argument integer-sum
reduction reaches a final state whose result future holds 23. -/
theorem claim_C1_sum_deterministic_witness :
    c1Final.finished = some 23 ∧ (23 : ℤ) = 23 := by
  refine ⟨rfl, ?_⟩
  have h1 : RReach sumOp c1Args c1S1 :=
    Relation.ReflTransGen.single (RStep.arrive _ 0 (0, 3) rfl)
  have h2 : RReach sumOp c1Args c1S2 :=
    Relation.ReflTransGen.tail h1 (RStep.run _ 0 (RTask.resultObj 0 (0, 3)) rfl)
  have h3 : RReach sumOp c1Args c1S3 :=
    Relation.ReflTransGen.tail h2 (RStep.arrive _ 0 (1, 1) rfl)
  have h4 : RReach sumOp c1Args c1S4 :=
    Relation.ReflTransGen.tail h3 (RStep.run _ 0 (RTask.resultObj 3 (1, 1)) rfl)
  have h5 : RReach sumOp c1Args c1S5 :=
    Relation.ReflTransGen.tail h4 (RStep.arrive _ 0 (2, 4) rfl)
  have h6 : RReach sumOp c1Args c1S6 :=
    Relation.ReflTransGen.tail h5 (RStep.run _ 0 (RTask.resultObj 4 (2, 4)) rfl)
  have h7 : RReach sumOp c1Args c1S7 :=
    Relation.ReflTransGen.tail h6 (RStep.arrive _ 0 (3, 1) rfl)
  have h8 : RReach sumOp c1Args c1S8 :=
    Relation.ReflTransGen.tail h7 (RStep.run _ 0 (RTask.resultObj 8 (3, 1)) rfl)
  have h9 : RReach sumOp c1Args c1S9 :=
    Relation.ReflTransGen.tail h8 (RStep.arrive _ 0 (4, 5) rfl)
  have h10 : RReach sumOp c1Args c1S10 :=
    Relation.ReflTransGen.tail h9 (RStep.run _ 0 (RTask.resultObj 9 (4, 5)) rfl)
  have h11 : RReach sumOp c1Args c1S11 :=
    Relation.ReflTransGen.tail h10 (RStep.arrive _ 0 (5, 9) rfl)
  have h12 : RReach sumOp c1Args c1S12 :=
    Relation.ReflTransGen.tail h11 (RStep.run _ 0 (RTask.resultObj 14 (5, 9)) rfl)
  have h13 : RReach sumOp c1Args c1Final :=
    Relation.ReflTransGen.tail h12 (RStep.finish _ 23 rfl rfl rfl)
  exact claim_C1_sum_deterministic c1Final h13 23 rfl

end TiledArray


namespace TiledArray

/-- C4 amended: in the reduce_result_object task body the steps occur in
the order: the op application consuming the argument, the destruction of
the argument, entry into the drain loop, and only after the drain loop
completes the decrement of the outstanding counter for the argument.  The
existential lists the events emitted by the drain loop itself. -/
theorem claim_C4_reduce_result_order {R A : Type} (op : ReduceOp R A) (r : R)
    (i : ℕ) (v : A) (s : RState R A) :
    ∃ tr : List REvent,
      (runTask op (RTask.resultObj r (i, v)) s).trace =
        s.trace ++ [REvent.opApp i, REvent.destroy i, REvent.drainEnter] ++ tr ++
          [REvent.decCount i] := by
  rcases hro : s.readyObject with _ | ⟨k, u⟩ <;> rcases hrr : s.readyResult with _ | r0
  · exact ⟨[REvent.park], by simp [runTask, drainStep, hro, hrr]⟩
  · exact ⟨[REvent.combineRes, REvent.park], by simp [runTask, drainStep, hro, hrr]⟩
  · exact ⟨[REvent.opApp k, REvent.destroy k, REvent.decCount k, REvent.park],
      by simp [runTask, drainStep, hro, hrr]⟩
  · exact ⟨[REvent.opApp k, REvent.destroy k, REvent.decCount k, REvent.combineRes,
        REvent.park],
      by simp [runTask, drainStep, hro, hrr]⟩

/-- A reduction state with both slots empty, as seen by a
reduce_result_object task body right after its result was claimed. -/
def c4State : RState ℤ ℤ :=
  { readyResult := none
    readyObject := none
    pending := []
    remaining := []
    deps := 1
    finished := none
    completionFired := false
    consumed := []
    destroyed := []
    trace := [] }

/-- C4 counterexample: executing the reduce_result_object body on a state
with both slots empty emits the events op, destroy, drain entry, park,
decrement in that order, so the counter decrement does not precede the
entry into the drain loop as the claim states. -/
theorem claim_C4_reduce_result_order_cex :
    (runTask sumOp (RTask.resultObj 0 (0, 5)) c4State).trace =
      [REvent.opApp 0, REvent.destroy 0, REvent.drainEnter, REvent.park,
        REvent.decCount 0] ∧
    ¬ ((runTask sumOp (RTask.resultObj 0 (0, 5)) c4State).trace.indexOf
          (REvent.decCount 0) <
        (runTask sumOp (RTask.resultObj 0 (0, 5)) c4State).trace.indexOf
          REvent.drainEnter) := by
  decide

end TiledArray
